import Mathlib

/-!
# Verification of the react-starter front-end utilities

A shallow embedding, in Lean 4, of the state-manipulating core of the
repository's hooks and stores:

* a JSON value model with serialization (`jsonStringify`) and parsing
  (`jsonParse`), standing in for the browser's `JSON.stringify`/`JSON.parse`
  (JSON numbers are modelled as integers; the escape form emitted for control
  characters is the `\u00XX` form, which `JSON.parse` accepts for every
  character `JSON.stringify` escapes);
* the UI store factory `useUiStore` (shallow-merge `update`, `reset`,
  localStorage persistence);
* the debounce hook `useDebouncedFunction` as a labelled transition system
  over the browser's timer table;
* the resource store factory `apiStoreCreator` (`_get` guard, `upsert`,
  `remove`, the promises the operations return);
* the `useHttp` hook of the autocomplete component, and the client-side
  filtering of `getUsers`/`getPosts`.

JavaScript objects are modelled as association lists of string keys
(`JsObj`); spread syntax `\x7b...a, ...b\x7d` is `jsSpread`.  Absent keys are
`none`; a JavaScript value that is `null`/`undefined`/`false` where the code
only tests truthiness is also modelled as `none` of an `Option`.
-/

namespace ReactStarter

/-! ## JSON value model -/

/-- JSON values. Numbers are modelled as integers (the repository's data uses
integer ids; float formatting is outside the model). Objects are ordered field
lists, matching JavaScript's insertion-ordered string keys. -/
inductive JValue : Type where
  | null : JValue
  | bool (b : Bool) : JValue
  | num (n : Int) : JValue
  | str (s : String) : JValue
  | arr (elems : List JValue) : JValue
  | obj (fields : List (String × JValue)) : JValue

/-- The character for a decimal digit `d < 10`. -/
def digitChar (d : Nat) : Char :=
  match d with
  | 0 => '0' | 1 => '1' | 2 => '2' | 3 => '3' | 4 => '4'
  | 5 => '5' | 6 => '6' | 7 => '7' | 8 => '8' | _ => '9'

/-- The character for a hexadecimal digit `d < 16` (lowercase, as
`JSON.stringify` emits). -/
def hexChar (d : Nat) : Char :=
  match d with
  | 0 => '0' | 1 => '1' | 2 => '2' | 3 => '3' | 4 => '4'
  | 5 => '5' | 6 => '6' | 7 => '7' | 8 => '8' | 9 => '9'
  | 10 => 'a' | 11 => 'b' | 12 => 'c' | 13 => 'd' | 14 => 'e' | _ => 'f'

/-- Is `c` a decimal digit? -/
def isDig (c : Char) : Bool := '0' ≤ c && c ≤ '9'

/-- Numeric value of a hexadecimal digit character, `none` otherwise. -/
def hexVal (c : Char) : Option Nat :=
  if isDig c then some (c.toNat - 48)
  else if 'a' ≤ c && c ≤ 'f' then some (c.toNat - 87)
  else if 'A' ≤ c && c ≤ 'F' then some (c.toNat - 55)
  else none

/-- Decimal digits of `n`, most significant first. -/
def decDigits (n : Nat) : List Char :=
  if n < 10 then [digitChar n]
  else decDigits (n / 10) ++ [digitChar (n % 10)]
  decreasing_by exact Nat.div_lt_self (by omega) (by omega)

/-- Characters of the JSON rendering of the integer `n`. -/
def intDigits (n : Int) : List Char :=
  if n < 0 then '-' :: decDigits n.natAbs else decDigits n.natAbs

/-- JSON escape of one character: `"` and `\` get a backslash escape, control
characters the `\u00XX` form, everything else stands for itself. -/
def escapeChar (c : Char) : List Char :=
  if c = '"' then ['\\', '"']
  else if c = '\\' then ['\\', '\\']
  else if c.toNat < 32 then
    ['\\', 'u', '0', '0', hexChar (c.toNat / 16), hexChar (c.toNat % 16)]
  else [c]

/-- JSON escape of a character list. -/
def escapeChars (cs : List Char) : List Char := cs.flatMap escapeChar

mutual

/-- Characters of the JSON serialization of a value. -/
def jChars : JValue → List Char
  | .null => 'n' :: ['u', 'l', 'l']
  | .bool true => 't' :: ['r', 'u', 'e']
  | .bool false => 'f' :: ['a', 'l', 's', 'e']
  | .num n => intDigits n
  | .str s => '"' :: escapeChars s.data ++ ['"']
  | .arr es => '[' :: jCharsElems es ++ [']']
  | .obj fs => '{' :: jCharsFields fs ++ ['}']

/-- Comma-separated serializations of array elements. -/
def jCharsElems : List JValue → List Char
  | [] => []
  | [v] => jChars v
  | v :: vs => jChars v ++ ',' :: jCharsElems vs

/-- Comma-separated `"key":value` serializations of object fields. -/
def jCharsFields : List (String × JValue) → List Char
  | [] => []
  | [(k, v)] => '"' :: escapeChars k.data ++ '"' :: ':' :: jChars v
  | (k, v) :: fs => ('"' :: escapeChars k.data ++ '"' :: ':' :: jChars v)
      ++ ',' :: jCharsFields fs

end

/-- `JSON.stringify` of the model. -/
def jsonStringify (v : JValue) : String := ⟨jChars v⟩

mutual

/-- Number of constructors in a value; used to bound the parser fuel. -/
def jSize : JValue → Nat
  | .arr es => 1 + jSizeElems es
  | .obj fs => 1 + jSizeFields fs
  | _ => 1

/-- Size of an element list. -/
def jSizeElems : List JValue → Nat
  | [] => 0
  | v :: vs => 1 + jSize v + jSizeElems vs

/-- Size of a field list. -/
def jSizeFields : List (String × JValue) → Nat
  | [] => 0
  | (_, v) :: fs => 1 + jSize v + jSizeFields fs

end

/-- Decimal value of a digit-character list, most significant first. -/
def decValue (cs : List Char) : Nat :=
  cs.foldl (fun a c => 10 * a + (c.toNat - '0'.toNat)) 0

/-- Parse a run of decimal digits (at least one) as a natural number. -/
def parseNat (cs : List Char) : Option (Nat × List Char) :=
  let ds := cs.takeWhile isDig
  if ds.isEmpty then none else some (decValue ds, cs.dropWhile isDig)

/-- Parse the body of a JSON string literal after the opening quote: yields
the decoded characters and the input after the closing quote. -/
def parseStr (cs : List Char) : Option (List Char × List Char) :=
  match cs with
  | [] => none
  | c :: rest =>
    if c = '"' then some ([], rest)
    else if c = '\\' then
      match rest with
      | [] => none
      | e :: rest2 =>
        if e = '"' then (parseStr rest2).map (fun p => ('"' :: p.1, p.2))
        else if e = '\\' then (parseStr rest2).map (fun p => ('\\' :: p.1, p.2))
        else if e = '/' then (parseStr rest2).map (fun p => ('/' :: p.1, p.2))
        else if e = 'b' then (parseStr rest2).map (fun p => (Char.ofNat 8 :: p.1, p.2))
        else if e = 'f' then (parseStr rest2).map (fun p => (Char.ofNat 12 :: p.1, p.2))
        else if e = 'n' then (parseStr rest2).map (fun p => ('\n' :: p.1, p.2))
        else if e = 'r' then (parseStr rest2).map (fun p => (Char.ofNat 13 :: p.1, p.2))
        else if e = 't' then (parseStr rest2).map (fun p => ('\t' :: p.1, p.2))
        else if e = 'u' then
          match rest2 with
          | h1 :: h2 :: h3 :: h4 :: rest3 =>
            match hexVal h1, hexVal h2, hexVal h3, hexVal h4 with
            | some a, some b, some c3, some d =>
              (parseStr rest3).map
                (fun p => (Char.ofNat (4096 * a + 256 * b + 16 * c3 + d) :: p.1, p.2))
            | _, _, _, _ => none
          | _ => none
        else none
    else (parseStr rest).map (fun p => (c :: p.1, p.2))
termination_by cs.length
decreasing_by all_goals (simp_all; try omega)

mutual

/-- Parse one JSON value (fuel-indexed recursive descent). -/
def parseVal : Nat → List Char → Option (JValue × List Char)
  | 0, _ => none
  | fuel + 1, cs =>
    match cs with
    | [] => none
    | c :: rest =>
      if c = 'n' then
        match rest with
        | 'u' :: 'l' :: 'l' :: r => some (.null, r)
        | _ => none
      else if c = 't' then
        match rest with
        | 'r' :: 'u' :: 'e' :: r => some (.bool true, r)
        | _ => none
      else if c = 'f' then
        match rest with
        | 'a' :: 'l' :: 's' :: 'e' :: r => some (.bool false, r)
        | _ => none
      else if c = '"' then (parseStr rest).map (fun p => (.str ⟨p.1⟩, p.2))
      else if c = '[' then
        if rest.head? = some ']' then some (.arr [], rest.tail)
        else (parseElems fuel rest).map (fun p => (.arr p.1, p.2))
      else if c = '{' then
        if rest.head? = some '}' then some (.obj [], rest.tail)
        else (parseFields fuel rest).map (fun p => (.obj p.1, p.2))
      else if c = '-' then
        (parseNat rest).map (fun p => (.num (-(Int.ofNat p.1)), p.2))
      else if isDig c then (parseNat cs).map (fun p => (.num (Int.ofNat p.1), p.2))
      else none

/-- Parse a non-empty comma-separated element list up to the closing `]`. -/
def parseElems : Nat → List Char → Option (List JValue × List Char)
  | 0, _ => none
  | fuel + 1, cs =>
    match parseVal fuel cs with
    | none => none
    | some (v, r) =>
      match r with
      | [] => none
      | c :: r2 =>
        if c = ',' then (parseElems fuel r2).map (fun p => (v :: p.1, p.2))
        else if c = ']' then some ([v], r2)
        else none

/-- Parse a non-empty comma-separated field list up to the closing brace. -/
def parseFields : Nat → List Char → Option (List (String × JValue) × List Char)
  | 0, _ => none
  | fuel + 1, cs =>
    match cs with
    | [] => none
    | c :: rest =>
      if c = '"' then
        match parseStr rest with
        | none => none
        | some (k, r) =>
          match r with
          | [] => none
          | c2 :: r2 =>
            if c2 = ':' then
              match parseVal fuel r2 with
              | none => none
              | some (v, r3) =>
                match r3 with
                | [] => none
                | c3 :: r4 =>
                  if c3 = ',' then
                    (parseFields fuel r4).map (fun p => ((⟨k⟩, v) :: p.1, p.2))
                  else if c3 = '}' then some ([(⟨k⟩, v)], r4)
                  else none
            else none
      else none

end

/-- `JSON.parse` of the model: `none` models a thrown parse error. -/
def jsonParse (s : String) : Option JValue :=
  match parseVal (s.data.length + 1) s.data with
  | some (v, []) => some v
  | _ => none

/-- Does the input avoid starting with a decimal digit?  Number parsing is
maximal-munch, so the round-trip lemmas track this of the trailing input. -/
def noDigitHead : List Char → Bool
  | [] => true
  | c :: _ => !isDig c

/-! ## JavaScript objects and spread merge -/

/-- A JavaScript object: ordered bindings of string keys.  Property access
takes the first binding with the key. -/
abbrev JsObj : Type := List (String × JValue)

/-- Property access `o[k]`. -/
def jsLookup (o : JsObj) (k : String) : Option JValue := List.lookup k o

/-- The object-literal spread of `b` into `a`: every key of `b` takes `b`'s
value, keys only in `a` keep `a`'s value. -/
def jsSpread (a b : JsObj) : JsObj :=
  a.filter (fun kv => (List.lookup kv.1 b).isNone) ++ b

/-! ## UI store factory (use-ui-store.hook.tsx) -/

/-- The browser's localStorage, as a map from keys to stored strings. -/
abbrev Storage : Type := String → Option String

namespace UiStore

/-- The `useState` initializer of the UI store Provider: when a persistence
key is configured and a saved snapshot exists and is truthy (a non-empty
string), rehydrate it with `JSON.parse` (`none` models the parse throwing
during render); otherwise fall back to the caller-supplied initial state. -/
def providerInit (persistId : Option String) (storage : Storage)
    (initialState : JValue) : Option JValue :=
  match persistId with
  | none => some initialState
  | some key =>
    match storage key with
    | none => some initialState
    | some saved =>
      if saved = "" then some initialState else jsonParse saved

/-- The persistence effect: on every change of `uiState`, when a persistence
key is configured, write the serialized state under that key. -/
def persistEffect (persistId : Option String) (storage : Storage)
    (uiState : JValue) : Storage :=
  match persistId with
  | none => storage
  | some key =>
    fun k => if k = key then some (jsonStringify uiState) else storage k

/-- `update`: shallow merge of a partial into the current state
(`{ ...stateSrc, ...state }`). -/
def update (stateSrc state : JsObj) : JsObj := jsSpread stateSrc state

/-- `reset`: set the state to the caller-supplied initial state, ignoring the
current state (and any persisted snapshot). -/
def reset (initialState : JValue) (_current : JValue) : JValue := initialState

end UiStore

/-! ## Debounce hook (debounce-function.hook.ts)

The hook owns one `timeoutRef`.  We model the browser timer table for this
instance as a list of scheduled-but-unfired timers with their ids, and the
hook's behavior as a labelled transition system: `call` runs the returned
debounced function (`clearTimeout(timeoutRef.current || 0)` then
`setTimeout`), `fire` is the environment firing a scheduled timer, and
`teardown` is the effect cleanup on unmount. -/

/-- State of one debounced-function instance plus its timers. -/
structure DebounceState (A : Type) where
  /-- Scheduled, not yet fired, not cleared timers: id and saved arguments. -/
  active : List (Nat × A)
  /-- `timeoutRef.current` (`none` = `null`; may be stale after a fire). -/
  ref : Option Nat
  /-- Next fresh timer id the environment will hand out. -/
  nextId : Nat
  /-- Arguments of the invocations of the wrapped callback, in order. -/
  fired : List A

/-- Events of the debounce instance. -/
inductive DebounceEvent (A : Type) where
  | call (args : A)
  | fire (id : Nat)
  | teardown

/-- One step of the debounce transition system. -/
def debounceStep {A : Type} (s : DebounceState A) (e : DebounceEvent A) :
    DebounceState A :=
  match e with
  | .call a =>
    let cleared := s.active.filter (fun t => !(some t.1 == s.ref))
    { s with
        active := cleared ++ [(s.nextId, a)]
        ref := some s.nextId
        nextId := s.nextId + 1 }
  | .fire id =>
    match s.active.find? (fun t => t.1 == id) with
    | none => s
    | some t =>
      { s with
          active := s.active.filter (fun t2 => !(t2.1 == id))
          fired := s.fired ++ [t.2] }
  | .teardown =>
    { s with active := s.active.filter (fun t => !(some t.1 == s.ref)) }

/-- Initial state: no timer scheduled, `timeoutRef.current = null`. -/
def debounceInit {A : Type} : DebounceState A := ⟨[], none, 0, []⟩

/-- Run a trace of events from the initial state. -/
def debounceRun {A : Type} (es : List (DebounceEvent A)) : DebounceState A :=
  es.foldl debounceStep debounceInit

/-- The invariant: at most one pending timer, and every pending timer is the
one `timeoutRef` holds. -/
def DebounceInv {A : Type} (s : DebounceState A) : Prop :=
  s.active.length ≤ 1 ∧ ∀ t ∈ s.active, s.ref = some t.1

/-! ## Resource store factory (`apiStoreCreator`)

State shape of a non-entity store (the entity variant adds an `entities`
map rebuilt on `get` success; no claim below depends on it).  The stray
`resMerged` field models the key the shorthand property
`{ ...stateSrc, modifying: false, resMerged }` adds to the state object in
the non-entity success branch of `upsert`. -/

/-- Resource store state (`getStateSrc` plus the stray `resMerged` key).
`error`/`errorModify` are `none` for the initial `false` and for `null`. -/
structure ApiState (D E : Type) where
  loading : Bool
  modifying : Bool
  error : Option E
  errorModify : Option E
  data : Option D
  resMerged : Option D

/-- `getStateSrc()`: the initial store state. -/
def getStateSrc {D E : Type} : ApiState D E :=
  { loading := false, modifying := false, error := none, errorModify := none
    data := none, resMerged := none }

/-- Settlement of the promise an operation returns to its caller. -/
inductive POutcome (E : Type) where
  | resolved
  | rejected (e : E)

/-- The `_get` re-entrancy guard:
`(state.data === null || options.refresh) && !state.loading`. -/
def getGuard {D E : Type} (s : ApiState D E) (refresh : Bool) : Bool :=
  (s.data.isNone || refresh) && !s.loading

/-- First `setState` of `_get`: `loading: true, error: null`. -/
def getStart {D E : Type} (s : ApiState D E) : ApiState D E :=
  { s with loading := true, error := none }

/-- `_get` success: `loading: false, data: result, errorModify: null`
(the mapped response may itself be `null`). -/
def getSuccess {D E : Type} (s : ApiState D E) (result : Option D) :
    ApiState D E :=
  { s with loading := false, data := result, errorModify := none }

/-- `_get` failure: `loading: false, error`. -/
def getFailure {D E : Type} (s : ApiState D E) (e : E) : ApiState D E :=
  { s with loading := false, error := some e }

/-- One call of `_get`/`get`, with the eventual settlement of the underlying
request supplied as `outcome`.  Returns the resulting state, whether a
network request was issued, and how the promise returned to the caller
settles (`_get` resolves its returned promise on success and rejects it with
the error on failure; when the guard skips the request it returns
`Promise.resolve()`). -/
def getCall {D E : Type} (s : ApiState D E) (refresh : Bool)
    (outcome : Except E (Option D)) :
    ApiState D E × Bool × POutcome E :=
  if getGuard s refresh then
    match outcome with
    | .ok r => (getSuccess (getStart s) r, true, .resolved)
    | .error e => (getFailure (getStart s) e, true, .rejected e)
  else (s, false, .resolved)

/-- `request`: `_get({ refresh: true, ...optionsOverride }, payload)` — the
override's own `refresh`, when present, wins over the forced `true`. -/
def requestCall {D E : Type} (s : ApiState D E) (refreshOverride : Option Bool)
    (outcome : Except E (Option D)) : ApiState D E × Bool × POutcome E :=
  getCall s (refreshOverride.getD true) outcome

/-- First `setState` of `upsert`: `modifying: true, errorModify: null`. -/
def upsertStart {D E : Type} (s : ApiState D E) : ApiState D E :=
  { s with modifying := true, errorModify := none }

/-- `upsert` success, non-entity branch: the shorthand property writes the
merged result under the key `resMerged`; `data` is left untouched. -/
def upsertSuccessNonEntity {D E : Type} (s : ApiState D E) (merged : D) :
    ApiState D E :=
  { s with modifying := false, resMerged := some merged }

/-- `upsert` failure: `modifying: false, error` (the shorthand `error`
property populates `error`, not `errorModify`). -/
def upsertFailure {D E : Type} (s : ApiState D E) (e : E) : ApiState D E :=
  { s with modifying := false, error := some e }

/-- One call of `upsert` (the shared body of `post`/`put`/`patch`) on a
non-entity store: `mapFn` is the optional per-verb response mapper (identity
when absent), `mergeFn` is `mergePayloadWithApiResponse`, `payload` the
submitted body, `outcome` the settlement of the HTTP request.  The promise
returned to the caller always resolves (the rejection is consumed by the
trailing `.catch`). -/
def upsertCall {D E : Type} (mapFn : D → D) (mergeFn : D → D → D)
    (payload : D) (s : ApiState D E) (outcome : Except E D) :
    ApiState D E × POutcome E :=
  let s1 := upsertStart s
  match outcome with
  | .ok r => (upsertSuccessNonEntity s1 (mergeFn payload (mapFn r)), .resolved)
  | .error e => (upsertFailure s1 e, .resolved)

/-- One call of `remove` on a non-entity store: `modifying: true,
errorModify: null`, then on success `data: r.data || null`, on failure
`modifying: false, error`.  The returned promise always resolves. -/
def removeCall {D E : Type} (s : ApiState D E) (outcome : Except E (Option D)) :
    ApiState D E × POutcome E :=
  let s1 := upsertStart s
  match outcome with
  | .ok r => ({ s1 with modifying := false, data := r }, .resolved)
  | .error e => ({ s1 with modifying := false, error := some e }, .resolved)

/-! ## `useHttp` hook (autocomplete.component.tsx) -/

/-- A partial of the hook state (`Partial<ApiState<t>>`): present keys only. -/
structure HttpPartial (D : Type) where
  data : Option D
  loading : Option Bool
  error : Option String

/-- The hook state, plus the stray `stateNew` key that
`setState(stateOld => ({ ...stateOld, stateNew }))` adds: the shorthand
property stores the partial under the key `stateNew` instead of spreading
it, so `data`/`loading`/`error` are never written after initialization. -/
structure HttpState (D : Type) where
  data : Option D
  loading : Bool
  error : Option String
  stateNew : Option (HttpPartial D)

/-- `stateInitial` of the hook. -/
def httpStateInitial {D : Type} : HttpState D :=
  { data := none, loading := false, error := none, stateNew := none }

/-- `stateChange`: `setState(stateOld => ({ ...stateOld, stateNew }))`. -/
def stateChange {D : Type} (s : HttpState D) (stateNew : HttpPartial D) :
    HttpState D :=
  { s with stateNew := some stateNew }

/-- One call of the hook's `get`: `stateChange({ loading: true })`, then the
GET settles and exactly one of the two `stateChange` calls runs.  The
returned promise always resolves (the two-handler `then` returns the data on
success and the error object on failure). -/
def httpGet {D : Type} (s : HttpState D) (outcome : Except String D) :
    HttpState D × POutcome String :=
  let s1 := stateChange s { data := none, loading := some true, error := none }
  match outcome with
  | .ok d =>
    (stateChange s1 { data := some d, loading := some false, error := none },
      .resolved)
  | .error msg =>
    (stateChange s1 { data := none, loading := some false, error := some msg },
      .resolved)

/-! ## Autocomplete client-side filter (getUsers/getPosts) -/

/-- The normalization both sides of the match go through:
`.toLowerCase().replace(/[^a-zA-Z ]/g, '')`. -/
def normalizeJs (s : String) : String :=
  ⟨(s.data.map Char.toLower).filter
    (fun c => ('a' ≤ c && c ≤ 'z') || ('A' ≤ c && c ≤ 'Z') || c == ' ')⟩

/-- The filter predicate applied to each fetched item:
`JSON.stringify(item)` normalized contains the normalized search term. -/
def itemMatches (searchValue : String) (item : JValue) : Bool :=
  decide (List.IsInfix (normalizeJs searchValue).data
    (normalizeJs (jsonStringify item)).data)

/-- The collection returned by `getUsers`/`getPosts` for a fetched response:
`!searchValue` (nil or empty string) keeps the whole collection, otherwise
the filter keeps the items whose flattened serialization matches. -/
def filterCollection (items : List JValue) (searchValue : Option String) :
    List JValue :=
  match searchValue with
  | none => items
  | some sv => if sv = "" then items else items.filter (itemMatches sv)

/-! ## Round-trip of the JSON serialization -/

theorem digitChar_isDig (d : Nat) : isDig (digitChar d) = true := by
  unfold digitChar
  split <;> decide

theorem digitChar_val {d : Nat} (h : d < 10) :
    (digitChar d).toNat - '0'.toNat = d := by
  interval_cases d <;> decide

theorem hexVal_hexChar {d : Nat} (h : d < 16) : hexVal (hexChar d) = some d := by
  interval_cases d <;> decide

theorem decDigits_ne_nil (n : Nat) : decDigits n ≠ [] := by
  unfold decDigits
  split <;> simp

theorem decDigits_all_isDig (n : Nat) : ∀ c ∈ decDigits n, isDig c = true := by
  induction n using Nat.strong_induction_on with
  | _ n ih =>
    unfold decDigits
    split
    · simp [digitChar_isDig]
    · intro c hc
      rcases List.mem_append.1 hc with h1 | h1
      · exact ih (n / 10) (Nat.div_lt_self (by omega) (by omega)) c h1
      · simp at h1
        subst h1
        exact digitChar_isDig _

theorem decValue_decDigits (n : Nat) : decValue (decDigits n) = n := by
  induction n using Nat.strong_induction_on with
  | _ n ih =>
    unfold decDigits
    split
    · have hd := digitChar_val (show n < 10 by omega)
      simpa [decValue] using hd
    · rename_i h
      rw [decValue, List.foldl_append]
      have hrec := ih (n / 10) (Nat.div_lt_self (by omega) (by omega))
      rw [decValue] at hrec
      simp only [List.foldl_cons, List.foldl_nil, hrec,
        digitChar_val (Nat.mod_lt n (by omega))]
      omega

theorem takeWhile_append_all {p : Char → Bool} :
    ∀ (l rest : List Char), (∀ c ∈ l, p c = true) →
      (∀ c, rest.head? = some c → p c = false) →
      (l ++ rest).takeWhile p = l ∧ (l ++ rest).dropWhile p = rest := by
  intro l rest hl hr
  induction l with
  | nil =>
    simp only [List.nil_append]
    cases rest with
    | nil => simp
    | cons c cs =>
      have := hr c rfl
      simp [List.takeWhile, List.dropWhile, this]
  | cons c cs ih =>
    have hc := hl c (List.mem_cons_self c cs)
    have := ih (fun c' hc' => hl c' (List.mem_cons_of_mem c hc'))
    simp [List.takeWhile, List.dropWhile, hc, this.1, this.2]

theorem parseNat_decDigits (n : Nat) (rest : List Char)
    (h : noDigitHead rest = true) :
    parseNat (decDigits n ++ rest) = some (n, rest) := by
  have hr : ∀ c, rest.head? = some c → isDig c = false := by
    intro c hc
    cases rest with
    | nil => simp at hc
    | cons c' cs =>
      simp at hc
      subst hc
      simpa [noDigitHead] using h
  have hw := takeWhile_append_all (decDigits n) rest (decDigits_all_isDig n) hr
  rw [parseNat]
  simp only [hw.1, hw.2]
  rw [if_neg (by simpa using decDigits_ne_nil n)]
  rw [decValue_decDigits]

theorem parseStr_escapeChars (cs rest : List Char) :
    parseStr (escapeChars cs ++ '"' :: rest) = some (cs, rest) := by
  induction cs with
  | nil =>
    show parseStr ('"' :: rest) = _
    rw [parseStr.eq_def]
    simp
  | cons c cs ih =>
    show parseStr ((escapeChar c ++ escapeChars cs) ++ '"' :: rest) = _
    rw [List.append_assoc]
    unfold escapeChar
    split_ifs with h1 h2 h3
    · subst h1
      rw [parseStr.eq_def]
      simp [ih]
    · subst h2
      rw [parseStr.eq_def]
      simp [ih]
    · have h16 : c.toNat % 16 < 16 := Nat.mod_lt _ (by omega)
      have h2' : c.toNat / 16 < 16 := by omega
      rw [parseStr.eq_def]
      simp only [List.cons_append, reduceIte, reduceCtorEq,
        hexVal_hexChar h16, hexVal_hexChar h2', ih,
        show hexVal '0' = some 0 from rfl]
      have hnum : 16 * (c.toNat / 16) + c.toNat % 16 = c.toNat := by omega
      simp [hnum, Char.ofNat_toNat, ih]
    · rw [parseStr.eq_def]
      simp [h1, h2, ih]

theorem jSize_pos (v : JValue) : 1 ≤ jSize v := by
  cases v <;> simp [jSize]

theorem ne_of_isDig {c c' : Char} (h : isDig c = true) (h' : isDig c' = false) :
    c ≠ c' := by
  intro he
  rw [he, h'] at h
  exact Bool.noConfusion h

theorem decDigits_shape (n : Nat) :
    ∃ c t, decDigits n = c :: t ∧ isDig c = true := by
  obtain ⟨c, t, heq⟩ := List.exists_cons_of_ne_nil (decDigits_ne_nil n)
  exact ⟨c, t, heq, decDigits_all_isDig n c (heq ▸ List.mem_cons_self c t)⟩

theorem jChars_cons (v : JValue) :
    ∃ c t, jChars v = c :: t ∧ c ≠ ']' ∧ c ≠ '}' := by
  cases v with
  | null => exact ⟨'n', _, rfl, by decide, by decide⟩
  | bool b =>
    cases b
    · exact ⟨'f', _, rfl, by decide, by decide⟩
    · exact ⟨'t', _, rfl, by decide, by decide⟩
  | num n =>
    show ∃ c t, intDigits n = c :: t ∧ _
    unfold intDigits
    split_ifs with h
    · exact ⟨'-', _, rfl, by decide, by decide⟩
    · obtain ⟨c, t, heq, hd⟩ := decDigits_shape n.natAbs
      exact ⟨c, t, heq, ne_of_isDig hd (by decide), ne_of_isDig hd (by decide)⟩
  | str s => exact ⟨'"', _, rfl, by decide, by decide⟩
  | arr es => exact ⟨'[', _, rfl, by decide, by decide⟩
  | obj fs => exact ⟨'{', _, rfl, by decide, by decide⟩

mutual

theorem jSize_le_length : ∀ (v : JValue), jSize v ≤ (jChars v).length
  | .null => by simp [jSize, jChars]
  | .bool true => by simp [jSize, jChars]
  | .bool false => by simp [jSize, jChars]
  | .num n => by
    have h := List.length_pos.2 (decDigits_ne_nil n.natAbs)
    simp only [jSize, jChars, intDigits]
    split_ifs <;> simp <;> omega
  | .str s => by simp [jSize, jChars]
  | .arr es => by
    have h := jSizeElems_le_length es
    simp only [jSize, jChars, List.length_cons, List.length_append,
      List.length_singleton]
    omega
  | .obj fs => by
    have h := jSizeFields_le_length fs
    simp only [jSize, jChars, List.length_cons, List.length_append,
      List.length_singleton]
    omega

theorem jSizeElems_le_length : ∀ (es : List JValue),
    jSizeElems es ≤ (jCharsElems es).length + 1
  | [] => by simp [jSizeElems, jCharsElems]
  | [v] => by
    have h := jSize_le_length v
    simp only [jSizeElems, jCharsElems]
    omega
  | v :: w :: ws => by
    have h1 := jSize_le_length v
    have h2 := jSizeElems_le_length (w :: ws)
    simp only [jSizeElems, jCharsElems, List.length_append,
      List.length_cons] at h2 ⊢
    omega

theorem jSizeFields_le_length : ∀ (fs : List (String × JValue)),
    jSizeFields fs ≤ (jCharsFields fs).length + 1
  | [] => by simp [jSizeFields, jCharsFields]
  | [(k, v)] => by
    have h := jSize_le_length v
    simp only [jSizeFields, jCharsFields, List.length_append, List.length_cons]
    omega
  | (k, v) :: (k2, v2) :: fs => by
    have h1 := jSize_le_length v
    have h2 := jSizeFields_le_length ((k2, v2) :: fs)
    simp only [jSizeFields, jCharsFields, List.length_append,
      List.length_cons] at h2 ⊢
    omega

end

theorem noDigitHead_cons {c : Char} (h : isDig c = false) (xs : List Char) :
    noDigitHead (c :: xs) = true := by
  simp [noDigitHead, h]

theorem jCharsElems_cons (v : JValue) (vs : List JValue) :
    ∃ t, jCharsElems (v :: vs) = jChars v ++ t := by
  cases vs with
  | nil => exact ⟨[], by simp [jCharsElems]⟩
  | cons w ws => exact ⟨_, rfl⟩

/-- Parsing inverts serialization: for every value `v` and trailing input not
starting with a digit, the parser consumes exactly the serialization of `v`
(fuel-indexed; `jSize v` bounds the fuel the nesting needs). -/
theorem parse_round (fuel : Nat) :
    (∀ v rest, jSize v ≤ fuel → noDigitHead rest = true →
        parseVal fuel (jChars v ++ rest) = some (v, rest))
  ∧ (∀ es rest, es ≠ [] → jSizeElems es ≤ fuel →
        parseElems fuel (jCharsElems es ++ ']' :: rest) = some (es, rest))
  ∧ (∀ fs rest, fs ≠ [] → jSizeFields fs ≤ fuel →
        parseFields fuel (jCharsFields fs ++ '}' :: rest) = some (fs, rest)) := by
  induction fuel with
  | zero =>
    refine ⟨fun v rest hs _ => absurd hs (by have := jSize_pos v; omega),
      fun es rest hne hs => ?_, fun fs rest hne hs => ?_⟩
    · cases es with
      | nil => exact absurd rfl hne
      | cons v vs =>
        exact absurd hs (by simp [jSizeElems])
    · cases fs with
      | nil => exact absurd rfl hne
      | cons f fs =>
        exact absurd hs (by cases f; simp [jSizeFields])
  | succ fuel ih =>
    obtain ⟨ihV, ihE, ihF⟩ := ih
    refine ⟨fun v rest hs hnd => ?_, fun es rest hne hs => ?_,
      fun fs rest hne hs => ?_⟩
    · cases v with
      | null =>
        show parseVal (fuel + 1) ('n' :: 'u' :: 'l' :: 'l' :: rest) = _
        simp [parseVal]
      | bool b =>
        cases b
        · show parseVal (fuel + 1)
              ('f' :: 'a' :: 'l' :: 's' :: 'e' :: rest) = _
          simp [parseVal]
        · show parseVal (fuel + 1) ('t' :: 'r' :: 'u' :: 'e' :: rest) = _
          simp [parseVal]
      | num n =>
        show parseVal (fuel + 1) (intDigits n ++ rest) = _
        unfold intDigits
        split_ifs with hneg
        · show parseVal (fuel + 1) ('-' :: (decDigits n.natAbs ++ rest)) = _
          have hp := parseNat_decDigits n.natAbs rest hnd
          have hval : -|n| = n := by
            rw [abs_of_nonpos (le_of_lt hneg)]
            ring
          simp [parseVal, hp, hval]
        · obtain ⟨c, t, heq, hd⟩ := decDigits_shape n.natAbs
          rw [heq, List.cons_append]
          simp only [parseVal]
          rw [if_neg (ne_of_isDig hd (by decide)),
            if_neg (ne_of_isDig hd (by decide)),
            if_neg (ne_of_isDig hd (by decide)),
            if_neg (ne_of_isDig hd (by decide)),
            if_neg (ne_of_isDig hd (by decide)),
            if_neg (ne_of_isDig hd (by decide)),
            if_neg (ne_of_isDig hd (by decide)), if_pos hd]
          rw [← List.cons_append, ← heq, parseNat_decDigits _ _ hnd]
          have hval : Int.ofNat n.natAbs = n := by
            rw [Int.ofNat_eq_natCast]
            omega
          simp only [Option.map, hval]
      | str s =>
        show parseVal (fuel + 1)
            (('"' :: escapeChars s.data ++ ['"']) ++ rest) = _
        have hk := parseStr_escapeChars s.data rest
        simp [parseVal, hk]
      | arr es =>
        cases es with
        | nil =>
          show parseVal (fuel + 1) ('[' :: ']' :: rest) = _
          simp [parseVal]
        | cons v vs =>
          obtain ⟨t, ht⟩ := jCharsElems_cons v vs
          obtain ⟨c, t0, hc, hcne, _⟩ := jChars_cons v
          have hsz : jSizeElems (v :: vs) ≤ fuel := by
            simp only [jSize] at hs
            omega
          have hhead : (jCharsElems (v :: vs) ++ ']' :: rest).head? ≠
              some ']' := by
            rw [ht, hc]
            simpa using hcne
          have he := ihE (v :: vs) rest (by simp) hsz
          show parseVal (fuel + 1)
              (('[' :: jCharsElems (v :: vs) ++ [']']) ++ rest) = _
          simp [parseVal, hhead, he]
          constructor
          · rw [ht, hc]
            simpa using hcne
          · rw [ht, hc]
            simp
      | obj fs =>
        cases fs with
        | nil =>
          show parseVal (fuel + 1) ('{' :: '}' :: rest) = _
          simp [parseVal]
        | cons f fs =>
          have hsz : jSizeFields (f :: fs) ≤ fuel := by
            simp only [jSize] at hs
            omega
          have hhead : (jCharsFields (f :: fs) ++ '}' :: rest).head? ≠
              some '}' := by
            obtain ⟨k, v⟩ := f
            cases fs <;> simp [jCharsFields]
          have hf := ihF (f :: fs) rest (by simp) hsz
          show parseVal (fuel + 1)
              (('{' :: jCharsFields (f :: fs) ++ ['}']) ++ rest) = _
          simp [parseVal, hhead, hf]
          obtain ⟨k, v⟩ := f
          cases fs <;> simp [jCharsFields]
    · cases es with
      | nil => exact absurd rfl hne
      | cons v vs =>
        cases vs with
        | nil =>
          have hsz : jSize v ≤ fuel := by
            simp only [jSizeElems] at hs
            omega
          have hv := ihV v (']' :: rest) hsz (noDigitHead_cons (by decide) rest)
          show parseElems (fuel + 1) (jChars v ++ ']' :: rest) = _
          simp [parseElems, hv]
        | cons w ws =>
          have hsz1 : jSize v ≤ fuel := by
            simp only [jSizeElems] at hs
            omega
          have hsz2 : jSizeElems (w :: ws) ≤ fuel := by
            simp only [jSizeElems] at hs ⊢
            omega
          have hv := ihV v (',' :: (jCharsElems (w :: ws) ++ ']' :: rest)) hsz1
            (noDigitHead_cons (by decide) _)
          have he := ihE (w :: ws) rest (by simp) hsz2
          show parseElems (fuel + 1)
              ((jChars v ++ ',' :: jCharsElems (w :: ws)) ++ ']' :: rest) = _
          simp [parseElems, hv, he]
    · cases fs with
      | nil => exact absurd rfl hne
      | cons f fs =>
        obtain ⟨k, v⟩ := f
        cases fs with
        | nil =>
          have hsz : jSize v ≤ fuel := by
            simp only [jSizeFields] at hs
            omega
          have hk := parseStr_escapeChars k.data
            (':' :: (jChars v ++ '}' :: rest))
          have hv := ihV v ('}' :: rest) hsz (noDigitHead_cons (by decide) rest)
          show parseFields (fuel + 1)
              ((('"' :: escapeChars k.data) ++ '"' :: ':' :: jChars v)
                ++ '}' :: rest) = _
          simp [parseFields, hk, hv]
        | cons g gs =>
          have hsz1 : jSize v ≤ fuel := by
            simp only [jSizeFields] at hs
            omega
          have hsz2 : jSizeFields (g :: gs) ≤ fuel := by
            obtain ⟨k2, v2⟩ := g
            simp only [jSizeFields] at hs ⊢
            omega
          have hk := parseStr_escapeChars k.data
            (':' :: (jChars v ++ ',' :: (jCharsFields (g :: gs) ++ '}' :: rest)))
          have hv := ihV v (',' :: (jCharsFields (g :: gs) ++ '}' :: rest)) hsz1
            (noDigitHead_cons (by decide) _)
          have hf := ihF (g :: gs) rest (by simp) hsz2
          show parseFields (fuel + 1)
              (((('"' :: escapeChars k.data) ++ '"' :: ':' :: jChars v)
                ++ ',' :: jCharsFields (g :: gs)) ++ '}' :: rest) = _
          simp [parseFields, hk, hv, hf]

/-- `JSON.parse` inverts `JSON.stringify`. -/
theorem jsonParse_jsonStringify (v : JValue) :
    jsonParse (jsonStringify v) = some v := by
  have h := (parse_round ((jChars v).length + 1)).1 v []
    (by have := jSize_le_length v; omega) rfl
  rw [List.append_nil] at h
  show (match parseVal ((jChars v).length + 1) (jChars v) with
    | some (v, []) => some v
    | _ => none) = some v
  rw [h]

/-- The serialization of a value is never the empty string. -/
theorem jsonStringify_ne_empty (v : JValue) : jsonStringify v ≠ "" := by
  obtain ⟨c, t, hc, -, -⟩ := jChars_cons v
  intro h
  rw [jsonStringify, hc] at h
  exact List.cons_ne_nil c t (congrArg String.data h)

/-! ## Lookup lemmas for the spread merge -/

theorem lookup_filter_append_of_some {l b : JsObj} {k : String} {v : JValue}
    (h : List.lookup k b = some v) :
    List.lookup k (l.filter (fun kv => (List.lookup kv.1 b).isNone) ++ b)
      = some v := by
  induction l with
  | nil => simpa using h
  | cons kv l ih =>
    obtain ⟨k0, v0⟩ := kv
    rw [List.filter_cons]
    by_cases h0 : (List.lookup k0 b).isNone = true
    · simp only [h0, if_true]
      by_cases hk : k = k0
      · subst hk
        rw [h] at h0
        simp at h0
      · rw [List.cons_append]
        simpa [List.lookup, show (k == k0) = false by simp [hk]] using ih
    · simp only [h0]
      simpa using ih

theorem lookup_filter_append_of_none {l b : JsObj} {k : String}
    (h : List.lookup k b = none) :
    List.lookup k (l.filter (fun kv => (List.lookup kv.1 b).isNone) ++ b)
      = List.lookup k l := by
  induction l with
  | nil => simp [h, List.lookup]
  | cons kv l ih =>
    obtain ⟨k0, v0⟩ := kv
    rw [List.filter_cons]
    by_cases hk : k = k0
    · subst hk
      have h0 : (List.lookup k b).isNone = true := by simp [h]
      simp only [h0, if_true, List.cons_append]
      simp [List.lookup]
    · by_cases h0 : (List.lookup k0 b).isNone = true
      · simp only [h0, if_true, List.cons_append]
        simp only [List.lookup, show (k == k0) = false by simp [hk]]
        exact ih
      · simp only [h0]
        simp only [List.lookup, show (k == k0) = false by simp [hk]]
        simpa using ih

/-- C6: `update` on the UI store is a shallow merge: every key present in the
partial takes the partial's value, and every key absent from the partial keeps
the current state's value. -/
theorem uiStore_update_shallow_merge (s p : JsObj) (k : String) :
    (∀ v, jsLookup p k = some v → jsLookup (UiStore.update s p) k = some v)
    ∧ (jsLookup p k = none → jsLookup (UiStore.update s p) k = jsLookup s k) := by
  constructor
  · intro v hv
    exact lookup_filter_append_of_some hv
  · intro hn
    exact lookup_filter_append_of_none hn

theorem uiStore_update_shallow_merge_witness :
    (jsLookup [("a", JValue.num 1)] "a" = some (JValue.num 1) →
      jsLookup (UiStore.update [("a", JValue.num 2), ("b", JValue.null)]
        [("a", JValue.num 1)]) "a" = some (JValue.num 1))
    ∧ (jsLookup [("a", JValue.num 1)] "b" = none →
      jsLookup (UiStore.update [("a", JValue.num 2), ("b", JValue.null)]
        [("a", JValue.num 1)]) "b"
        = jsLookup [("a", JValue.num 2), ("b", JValue.null)] "b") :=
  ⟨(uiStore_update_shallow_merge [("a", JValue.num 2), ("b", JValue.null)]
      [("a", JValue.num 1)] "a").1 (JValue.num 1),
    (uiStore_update_shallow_merge [("a", JValue.num 2), ("b", JValue.null)]
      [("a", JValue.num 1)] "b").2⟩

/-- C7: with a persistence key, writing any state to storage and then
constructing a new provider from that storage rehydrates exactly that
state. -/
theorem uiStore_persist_roundtrip (key : String) (storage : Storage)
    (s initialState : JValue) :
    UiStore.providerInit (some key)
      (UiStore.persistEffect (some key) storage s) initialState = some s := by
  show (match (if key = key then some (jsonStringify s) else storage key) with
    | none => some initialState
    | some saved =>
      if saved = "" then some initialState else jsonParse saved) = some s
  rw [if_pos rfl]
  show (if jsonStringify s = "" then some initialState
    else jsonParse (jsonStringify s)) = some s
  rw [if_neg (jsonStringify_ne_empty s), jsonParse_jsonStringify]

/-- C10: `reset` sets the state to the caller-supplied initial state even when
a persisted snapshot exists, and the persistence effect then overwrites the
snapshot with the serialized initial state. -/
theorem uiStore_reset_ignores_persisted (key : String) (storage : Storage)
    (snapshot : String) (current initialState : JValue)
    (h : storage key = some snapshot) :
    UiStore.reset initialState current = initialState
    ∧ UiStore.persistEffect (some key) storage
        (UiStore.reset initialState current) key
        = some (jsonStringify initialState) := by
  refine ⟨rfl, ?_⟩
  show (if key = key then some (jsonStringify initialState) else storage key)
    = some (jsonStringify initialState)
  rw [if_pos rfl]

theorem uiStore_reset_ignores_persisted_witness :
    UiStore.reset JValue.null (JValue.bool true) = JValue.null
    ∧ UiStore.persistEffect (some "store") (fun _ => some "stale")
        (UiStore.reset JValue.null (JValue.bool true)) "store"
        = some (jsonStringify JValue.null) :=
  uiStore_reset_ignores_persisted "store" (fun _ => some "stale") "stale"
    (JValue.bool true) JValue.null rfl

/-! ## Debounce invariants -/

theorem debounce_clear_of_inv {A : Type} {s : DebounceState A}
    (h : ∀ t ∈ s.active, s.ref = some t.1) :
    s.active.filter (fun t => !(some t.1 == s.ref)) = [] := by
  rw [List.filter_eq_nil]
  intro t ht
  simp [h t ht]

theorem debounceStep_inv {A : Type} {s : DebounceState A}
    (hinv : DebounceInv s) (e : DebounceEvent A) :
    DebounceInv (debounceStep s e) := by
  obtain ⟨hlen, href⟩ := hinv
  cases e with
  | call a =>
    simp only [debounceStep]
    rw [debounce_clear_of_inv href]
    constructor
    · simp
    · intro t ht
      simp at ht
      simp [ht]
  | fire id =>
    simp only [debounceStep]
    cases hf : s.active.find? (fun t => t.1 == id) with
    | none => exact ⟨hlen, href⟩
    | some t =>
      constructor
      · exact le_trans (List.length_filter_le _ _) hlen
      · intro t2 ht2
        exact href t2 (List.mem_of_mem_filter ht2)
  | teardown =>
    constructor
    · exact le_trans (List.length_filter_le _ _) hlen
    · intro t2 ht2
      exact href t2 (List.mem_of_mem_filter ht2)

theorem debounce_fire_on_empty {A : Type} {s : DebounceState A}
    (h : s.active = []) (id : Nat) : debounceStep s (.fire id) = s := by
  simp only [debounceStep, h, List.find?]

theorem debounce_foldl_inv {A : Type} (es : List (DebounceEvent A)) :
    ∀ s : DebounceState A, DebounceInv s →
      DebounceInv (es.foldl debounceStep s) := by
  induction es with
  | nil => exact fun s h => h
  | cons e es ih => exact fun s h => ih _ (debounceStep_inv h e)

/-- C8: at most one pending timer exists at any reachable state; a call
cancels the previous pending schedule and leaves exactly the new one; and
teardown cancels any pending schedule, after which a timer firing invokes
nothing. -/
theorem useDebouncedFunction_single_timer (A : Type) :
    (∀ es : List (DebounceEvent A), DebounceInv (debounceRun es))
    ∧ (∀ (s : DebounceState A) (a : A), DebounceInv s →
        (debounceStep s (.call a)).active = [(s.nextId, a)])
    ∧ (∀ s : DebounceState A, DebounceInv s →
        (debounceStep s .teardown).active = []
        ∧ ∀ id, (debounceStep (debounceStep s .teardown) (.fire id)).fired
            = s.fired) := by
  refine ⟨fun es => debounce_foldl_inv es _ ?_, fun s a hinv => ?_,
    fun s hinv => ?_⟩
  · constructor <;> simp [debounceInit]
  · simp only [debounceStep]
    rw [debounce_clear_of_inv hinv.2]
    rfl
  · have hclear : (debounceStep s .teardown).active = [] := by
      simp only [debounceStep]
      exact debounce_clear_of_inv hinv.2
    refine ⟨hclear, fun id => ?_⟩
    rw [debounce_fire_on_empty hclear]
    rfl

theorem useDebouncedFunction_single_timer_witness :
    DebounceInv (debounceRun [DebounceEvent.call 7])
    ∧ (debounceStep ⟨[(0, 7)], some 0, 1, []⟩ (DebounceEvent.call 9)).active
        = [(1, 9)]
    ∧ (debounceStep ⟨[(0, 7)], some 0, 1, []⟩ DebounceEvent.teardown).active
        = [] :=
  ⟨(useDebouncedFunction_single_timer Nat).1 [DebounceEvent.call 7],
    (useDebouncedFunction_single_timer Nat).2.1 ⟨[(0, 7)], some 0, 1, []⟩ 9
      (by constructor <;> simp),
    ((useDebouncedFunction_single_timer Nat).2.2 ⟨[(0, 7)], some 0, 1, []⟩
      (by constructor <;> simp)).1⟩

/-! ## Resource store claims -/

/-- C1 evaluation at a failing input: a rejected modify request (here a
`post`, via `upsert`, and a `remove`) clears `modifying` but populates
`error`, leaving `errorModify` empty — the catch handlers write the shorthand
`error` property, not `errorModify`. -/
theorem apiStore_modify_failure_eval :
    ((upsertCall id (fun p _ => p) 2
        ({ getStateSrc with data := some 1 } : ApiState Nat String)
        (.error "network")).1.modifying = false)
    ∧ ((upsertCall id (fun p _ => p) 2
        ({ getStateSrc with data := some 1 } : ApiState Nat String)
        (.error "network")).1.errorModify = none)
    ∧ ((upsertCall id (fun p _ => p) 2
        ({ getStateSrc with data := some 1 } : ApiState Nat String)
        (.error "network")).1.error = some "network")
    ∧ ((removeCall ({ getStateSrc with data := some 1 } : ApiState Nat String)
        (.error "network")).1.modifying = false)
    ∧ ((removeCall ({ getStateSrc with data := some 1 } : ApiState Nat String)
        (.error "network")).1.errorModify = none)
    ∧ ((removeCall ({ getStateSrc with data := some 1 } : ApiState Nat String)
        (.error "network")).1.error = some "network") :=
  ⟨rfl, rfl, rfl, rfl, rfl, rfl⟩

/-- C2: `get` issues no request when data is loaded and no refresh was asked,
or while a load is in flight; two `get`s in a row perform exactly one request
once the first one has populated `data`. -/
theorem apiStore_get_caches {D E : Type} :
    (∀ (s : ApiState D E) (o : Except E (Option D)),
        s.data ≠ none → (getCall s false o).2.1 = false)
    ∧ (∀ (s : ApiState D E) (refresh : Bool) (o : Except E (Option D)),
        s.loading = true → (getCall s refresh o).2.1 = false)
    ∧ (∀ (s : ApiState D E) (d : D) (o2 : Except E (Option D)),
        s.data = none → s.loading = false →
          (getCall s false (.ok (some d))).2.1 = true
          ∧ (getCall (getCall s false (.ok (some d))).1 false o2).2.1
              = false) := by
  refine ⟨fun s o hd => ?_, fun s refresh o hl => ?_,
    fun s d o2 hd hl => ?_⟩
  · have h1 : s.data.isNone = false := by
      cases h : s.data with
      | none => exact absurd h hd
      | some d => rfl
    simp [getCall, getGuard, h1]
  · simp [getCall, getGuard, hl]
  · have h1 : s.data.isNone = true := by simp [hd]
    constructor
    · simp [getCall, getGuard, h1, hl]
    · simp [getCall, getGuard, h1, hl, getSuccess, getStart]

theorem apiStore_get_caches_witness :
    (getCall (getStateSrc : ApiState Nat String) false (.ok (some 3))).2.1
        = true
    ∧ (getCall (getCall (getStateSrc : ApiState Nat String) false
        (.ok (some 3))).1 false (.ok (some 4))).2.1 = false :=
  apiStore_get_caches.2.2 getStateSrc 3 (.ok (some 4)) rfl rfl

/-- C3 evaluation at a failing input: a successful non-entity `post` leaves
`data` unchanged; the merged result lands under the stray `resMerged` key
created by the shorthand property. -/
theorem apiStore_upsert_nonentity_leaves_data :
    ((upsertCall id (fun _ r => r) 5
        ({ getStateSrc with data := some 1 } : ApiState Nat String)
        (.ok 7)).1.data = some 1)
    ∧ ((upsertCall id (fun _ r => r) 5
        ({ getStateSrc with data := some 1 } : ApiState Nat String)
        (.ok 7)).1.resMerged = some 7)
    ∧ ((upsertCall id (fun _ r => r) 5
        ({ getStateSrc with data := some 1 } : ApiState Nat String)
        (.ok 7)).1.modifying = false) :=
  ⟨rfl, rfl, rfl⟩

/-- C4 counterexample: when the guard lets a `get` issue a request and that
request rejects, the promise `_get` returns to the caller rejects with the
error — it is not converted into state flags only. -/
theorem apiStore_get_promise_rejects :
    (getCall (getStateSrc : ApiState Nat String) false (.error "boom")).2.2
      = POutcome.rejected "boom" := rfl

/-- C4 amended: the promises returned by `upsert` (post/put/patch), `remove`
and the HTTP hook's `get` always resolve; the promise returned by the
store's `get`/`request` resolves on success or when no request is issued,
and rejects with the error exactly when an issued request fails. -/
theorem apiStore_promise_settlement {D E : Type} :
    (∀ (mapFn : D → D) (mergeFn : D → D → D) (payload : D)
        (s : ApiState D E) (o : Except E D),
        (upsertCall mapFn mergeFn payload s o).2 = POutcome.resolved)
    ∧ (∀ (s : ApiState D E) (o : Except E (Option D)),
        (removeCall s o).2 = POutcome.resolved)
    ∧ (∀ (hs : HttpState D) (o : Except String D),
        (httpGet hs o).2 = POutcome.resolved)
    ∧ (∀ (s : ApiState D E) (refresh : Bool) (e : E),
        (getCall s refresh (.error e)).2.2
          = if getGuard s refresh then POutcome.rejected e
            else POutcome.resolved)
    ∧ (∀ (s : ApiState D E) (refresh : Bool) (r : Option D),
        (getCall s refresh (.ok r)).2.2 = POutcome.resolved)
    ∧ (∀ (s : ApiState D E) (ro : Option Bool) (e : E),
        (requestCall s ro (.error e)).2.2
          = if getGuard s (ro.getD true) then POutcome.rejected e
            else POutcome.resolved) := by
  refine ⟨fun mapFn mergeFn payload s o => ?_, fun s o => ?_, fun hs o => ?_,
    fun s refresh e => ?_, fun s refresh r => ?_, fun s ro e => ?_⟩
  · cases o <;> rfl
  · cases o <;> rfl
  · cases o <;> rfl
  · simp only [getCall]
    split_ifs <;> rfl
  · simp only [getCall]
    split_ifs <;> rfl
  · simp only [requestCall, getCall]
    split_ifs <;> rfl

/-! ## `useHttp` hook claim -/

/-- C5 evaluation at a failing input: a `get` of the hook never changes
`loading`, `data` or `error` — every `stateChange` stores its partial under
the stray `stateNew` key instead of spreading it. -/
theorem useHttp_get_never_updates_state :
    ((stateChange (httpStateInitial : HttpState Nat)
        { data := none, loading := some true, error := none }).loading
      = false)
    ∧ ((httpGet (httpStateInitial : HttpState Nat) (.ok 5)).1.loading = false)
    ∧ ((httpGet (httpStateInitial : HttpState Nat) (.ok 5)).1.data = none)
    ∧ ((httpGet (httpStateInitial : HttpState Nat) (.error "fail")).1.error
        = none)
    ∧ ((httpGet (httpStateInitial : HttpState Nat) (.error "fail")).1.loading
        = false)
    ∧ ((httpGet (httpStateInitial : HttpState Nat) (.error "fail")).1.stateNew
        = some { data := none, loading := some false, error := some "fail" }) :=
  ⟨rfl, rfl, rfl, rfl, rfl, rfl⟩

/-! ## Autocomplete filter claim -/

/-- C9: a nil or empty search term returns the whole collection; for a
non-empty term an item is kept iff the normalized (lowercased,
alphabetic-and-space only) serialization of the item contains the equally
normalized term. -/
theorem autocomplete_filter_spec :
    (∀ items : List JValue, filterCollection items none = items)
    ∧ (∀ items : List JValue, filterCollection items (some "") = items)
    ∧ (∀ (items : List JValue) (sv : String) (item : JValue), sv ≠ "" →
        (item ∈ filterCollection items (some sv) ↔
          item ∈ items ∧
            List.IsInfix (normalizeJs sv).data
              (normalizeJs (jsonStringify item)).data)) := by
  refine ⟨fun items => rfl, fun items => by simp [filterCollection],
    fun items sv item hsv => ?_⟩
  show item ∈ (if sv = "" then items else items.filter (itemMatches sv)) ↔ _
  rw [if_neg hsv, List.mem_filter]
  simp [itemMatches]

theorem autocomplete_filter_spec_witness :
    JValue.str "Ann" ∈ filterCollection [JValue.str "Ann"] (some "an") ↔
      JValue.str "Ann" ∈ [JValue.str "Ann"] ∧
        List.IsInfix (normalizeJs "an").data
          (normalizeJs (jsonStringify (JValue.str "Ann"))).data :=
  autocomplete_filter_spec.2.2 [JValue.str "Ann"] "an" (JValue.str "Ann")
    (by decide)

end ReactStarter
